import Mathlib

/-!
Verification development for the obs-ls-headless synchronization core.

This file gives a shallow embedding of the sync engine of the repository:
the chunk assembler (`src/core/chunk-assembler.ts`), the LiveSync crypto
adapter (`src/utils/livesync-crypto.ts`), the note repositories
(`src/repositories/*.ts`) and the repository-backed `SyncService`
(`src/services/sync-service.ts`, repository-backed variant).  JavaScript
awaits are modelled by a sequential interpreter that records every external
call in a trace; JavaScript truthiness on optional strings/numbers is made
explicit; `Buffer.from(s, 'base64').toString('utf-8')` is modelled by an
executable forgiving base64 decoder followed by a UTF-8 decoder.
-/

namespace ObsLs

/-! ## JavaScript truthiness helpers -/

/-- Truthiness of an optional string: `undefined` and `""` are falsy. -/
def truthyS : Option String → Bool
  | none => false
  | some s => s != ""

/-- Truthiness of an optional integer: `undefined` and `0` are falsy. -/
def truthyI : Option Int → Bool
  | none => false
  | some n => n != 0

/-! ## Base64 decoding (model of `Buffer.from(s, 'base64')`)

Node's base64 decoder ignores characters outside the base64 alphabet
(including `=` padding and whitespace) and decodes the remaining sextets;
a trailing group of 2 or 3 sextets yields 1 or 2 bytes. -/

/-- Value of one base64 alphabet character, `none` for anything else. -/
def base64CharVal (c : Char) : Option Nat :=
  if 'A' ≤ c ∧ c ≤ 'Z' then some (c.toNat - 65)
  else if 'a' ≤ c ∧ c ≤ 'z' then some (c.toNat - 97 + 26)
  else if '0' ≤ c ∧ c ≤ '9' then some (c.toNat - 48 + 52)
  else if c = '+' then some 62
  else if c = '/' then some 63
  else none

/-- Turn a list of sextet values into bytes, four sextets giving three bytes. -/
def b64Groups : List Nat → List Nat
  | a :: b :: c :: d :: rest =>
      (a * 4 + b / 16) :: ((b % 16) * 16 + c / 4) :: ((c % 4) * 64 + d) :: b64Groups rest
  | [a, b, c] => [a * 4 + b / 16, (b % 16) * 16 + c / 4]
  | [a, b] => [a * 4 + b / 16]
  | _ => []

/-- Bytes of the base64 decoding of `s`. -/
def base64DecodeBytes (s : String) : List Nat :=
  b64Groups (s.data.filterMap base64CharVal)

/-! ## UTF-8 decoding (model of `buffer.toString('utf-8')`) -/

/-- Whether a byte is a UTF-8 continuation byte. -/
def isCont (b : Nat) : Bool := 128 ≤ b && b < 192

/-- Fuel-indexed UTF-8 decoder; each step consumes at least one byte, so a
fuel equal to the byte count suffices. -/
def utf8DecodeAux : Nat → List Nat → List Char
  | 0, _ => []
  | _ + 1, [] => []
  | fuel + 1, b :: rest =>
    if b < 128 then Char.ofNat b :: utf8DecodeAux fuel rest
    else if 194 ≤ b && b ≤ 223 then
      match rest with
      | b2 :: rest2 =>
        if isCont b2 then
          Char.ofNat ((b - 192) * 64 + (b2 - 128)) :: utf8DecodeAux fuel rest2
        else Char.ofNat 0xFFFD :: utf8DecodeAux fuel rest
      | [] => [Char.ofNat 0xFFFD]
    else if 224 ≤ b && b ≤ 239 then
      match rest with
      | b2 :: b3 :: rest3 =>
        if isCont b2 && isCont b3 then
          Char.ofNat ((b - 224) * 4096 + (b2 - 128) * 64 + (b3 - 128)) :: utf8DecodeAux fuel rest3
        else Char.ofNat 0xFFFD :: utf8DecodeAux fuel rest
      | _ => [Char.ofNat 0xFFFD]
    else if 240 ≤ b && b ≤ 244 then
      match rest with
      | b2 :: b3 :: b4 :: rest4 =>
        if isCont b2 && isCont b3 && isCont b4 then
          Char.ofNat ((b - 240) * 262144 + (b2 - 128) * 4096 + (b3 - 128) * 64 + (b4 - 128))
            :: utf8DecodeAux fuel rest4
        else Char.ofNat 0xFFFD :: utf8DecodeAux fuel rest
      | _ => [Char.ofNat 0xFFFD]
    else Char.ofNat 0xFFFD :: utf8DecodeAux fuel rest

/-- Decode a byte list as UTF-8 text. -/
def utf8ToString (bs : List Nat) : String :=
  String.mk (utf8DecodeAux bs.length bs)

/-- Model of `Buffer.from(s, 'base64').toString('utf-8')`. -/
def base64ToUtf8 (s : String) : String :=
  utf8ToString (base64DecodeBytes s)

/-! ## JavaScript string methods, modelled over character lists -/

/-- Whether `needle` is a prefix of `hay` (on character lists). -/
def charsPrefix : List Char → List Char → Bool
  | [], _ => true
  | _ :: _, [] => false
  | a :: t, b :: u => a == b && charsPrefix t u

/-- Whether `needle` occurs contiguously inside `hay`. -/
def charsContains (hay needle : List Char) : Bool :=
  match hay with
  | [] => needle.isEmpty
  | c :: t => charsPrefix needle (c :: t) || charsContains t needle

/-- Model of `s.includes(sub)` on JavaScript strings. -/
def strIncludes (s sub : String) : Bool :=
  charsContains s.data sub.data

/-- Model of `s.startsWith(pre)`. -/
def jsStartsWith (s pre : String) : Bool :=
  charsPrefix pre.data s.data

/-- Model of `s.includes(c)` for a single character. -/
def jsContainsChar (s : String) (c : Char) : Bool :=
  s.data.contains c

/-- Model of `s.toLowerCase()` (ASCII range). -/
def jsToLower (s : String) : String :=
  String.mk (s.data.map Char.toLower)

/-- Whitespace characters removed by `s.trim()`. -/
def jsIsWs (c : Char) : Bool :=
  c == ' ' || c == '\t' || c == '\n' || c == '\r'

/-- Model of `s.trim()`. -/
def jsTrim (s : String) : String :=
  String.mk (((s.data.dropWhile jsIsWs).reverse.dropWhile jsIsWs).reverse)

/-! ## Data model (`src/types/index.ts`) -/

/-- Eden chunk structure: base64 data plus an epoch ordering number. -/
structure EdenChunk where
  data : String
  epoch : Int
  deriving DecidableEq, Repr

/-- Obsidian LiveSync document structure (`LiveSyncDocument`).  The `eden`
record is modelled as an association list in object-iteration order; the
`pbkdf2salt` field is present on the sync-parameters document and read via
a cast in the source. -/
structure LiveSyncDocument where
  _id : String
  type : Option String := none
  path : Option String := none
  data : Option String := none
  children : Option (List String) := none
  eden : Option (List (String × EdenChunk)) := none
  mtime : Option Int := none
  ctime : Option Int := none
  size : Option Int := none
  deleted : Bool := false
  _deleted : Bool := false
  pbkdf2salt : Option String := none
  deriving DecidableEq, Repr

/-- An assembled note (`Note`); times are epoch instants. -/
structure Note where
  id : String
  path : String
  content : String
  mtime : Int
  ctime : Int
  size : Int
  deriving DecidableEq, Repr

/-- Process-local sync status (`SyncStatus`). -/
structure SyncStatus where
  isRunning : Bool
  lastSyncTime : Option Int
  lastSyncSuccess : Bool
  documentsCount : Nat
  lastSeq : Option String := none
  error : Option String := none
  deriving DecidableEq, Repr

/-! ## Document Store environment (`IDocumentStorage`)

`getDocument` returns the record or `null`; `getDocuments` returns the bulk
result, a `Map` modelled as an association list in map-iteration order
(insertion order, later bindings shadowing earlier ones). -/

/-- Responses of the Document Store, as seen by crypto and assembler. -/
structure StorageEnv where
  getDocument : String → Option LiveSyncDocument
  getDocuments : List String → List (String × LiveSyncDocument)

/-- Lookup in the bulk-fetch `Map`: the last binding for a key wins,
mirroring `Map.set` insertion semantics. -/
def mapGet (m : List (String × LiveSyncDocument)) (k : String) : Option LiveSyncDocument :=
  ((m.filter (fun p => p.1 == k)).getLast?).map (fun p => p.2)

/-! ## Crypto adapter (`src/utils/livesync-crypto.ts`) -/

/-- Fixed id of the sync-parameters record (`SYNC_PARAMS_DOCID`). -/
def syncParamsDocId : String := "_local/obsidian_livesync_sync_parameters"

/-- Marker of HKDF-encrypted payloads (`HKDF_PREFIX`). -/
def hkdfMarker : String := "%="

/-- Embeds `LiveSyncCrypto.isEncrypted`: payload starts with `%=`. -/
def isEncrypted (data : String) : Bool := jsStartsWith data hkdfMarker

/-- Passphrase plus the external HKDF decryption routine
(`octagonal-wheels/encryption/hkdf.js`, modelled abstractly as a function
of payload, passphrase and salt that may fail). -/
structure CryptoCtx where
  passphrase : String
  hkdf : String → String → List Nat → Except String String

/-- Mutable state of one `LiveSyncCrypto` instance: the cached salt. -/
structure CryptoState where
  pbkdf2Salt : Option (List Nat) := none
  deriving DecidableEq, Repr

/-- Outcome of a crypto/assembly operation: the result, the crypto state on
exit, and how many `getDocument` calls were made for the salt record. -/
structure CryptoOut (α : Type) where
  result : Except String α
  state : CryptoState
  storeQueries : Nat
  deriving Repr

/-- Embeds `LiveSyncCrypto.getPBKDF2Salt`: return the cached salt if
present, otherwise fetch the sync-parameters record once, read its
`pbkdf2salt` field, cache and return the decoded bytes; any failure is
wrapped in a `Failed to load encryption salt:` message and nothing is
cached. -/
def getPBKDF2Salt (env : StorageEnv) (st : CryptoState) : CryptoOut (List Nat) :=
  match st.pbkdf2Salt with
  | some s => ⟨.ok s, st, 0⟩
  | none =>
    match env.getDocument syncParamsDocId with
    | none =>
      ⟨.error ("Failed to load encryption salt: Sync parameters document not found. "
        ++ "Make sure the database is a valid LiveSync database with encryption enabled."),
        st, 1⟩
    | some syncParams =>
      if truthyS syncParams.pbkdf2salt then
        let salt := base64DecodeBytes (syncParams.pbkdf2salt.getD "")
        ⟨.ok salt, { st with pbkdf2Salt := some salt }, 1⟩
      else
        ⟨.error "Failed to load encryption salt: pbkdf2salt not found in sync parameters document",
          st, 1⟩

/-- Embeds `LiveSyncCrypto.decrypt`: unmarked data is returned as-is without
touching the store; marked data needs the salt and the HKDF routine, and
failures are wrapped in a `Decryption failed:` message. -/
def decrypt (c : CryptoCtx) (env : StorageEnv) (st : CryptoState) (encryptedData : String) :
    CryptoOut String :=
  if !(isEncrypted encryptedData) then ⟨.ok encryptedData, st, 0⟩
  else
    match getPBKDF2Salt env st with
    | ⟨.error e, st', n⟩ => ⟨.error ("Decryption failed: " ++ e), st', n⟩
    | ⟨.ok salt, st', n⟩ =>
      match c.hkdf encryptedData c.passphrase salt with
      | .error e => ⟨.error ("Decryption failed: " ++ e), st', n⟩
      | .ok plain => ⟨.ok plain, st', n⟩

/-! ## Chunk assembler (`src/core/chunk-assembler.ts`) -/

/-- One `ChunkAssembler` instance: the storage it was built over and the
optional crypto adapter (present iff a passphrase was configured). -/
structure AsmCtx where
  storage : StorageEnv
  crypto : Option CryptoCtx

/-- Decrypt/decode rule used at every leaf: route through the crypto adapter
when configured, otherwise base64-decode directly. -/
def chunkDecode (ctx : AsmCtx) (st : CryptoState) (s : String) : CryptoOut String :=
  match ctx.crypto with
  | some c => decrypt c ctx.storage st s
  | none => ⟨.ok (base64ToUtf8 s), st, 0⟩

/-- Loop body of `assembleFromChildren`: walk the id list in its original
order, looking each id up in the bulk-fetch map; a missing chunk or a chunk
whose `data` field is falsy aborts with the corresponding error. -/
def childrenLoop (ctx : AsmCtx) (m : List (String × LiveSyncDocument)) (st : CryptoState) :
    List String → CryptoOut (List String)
  | [] => ⟨.ok [], st, 0⟩
  | chunkId :: rest =>
    match mapGet m chunkId with
    | none => ⟨.error ("Chunk not found: " ++ chunkId), st, 0⟩
    | some chunk =>
      if truthyS chunk.data then
        match chunkDecode ctx st (chunk.data.getD "") with
        | ⟨.error e, st', n⟩ => ⟨.error e, st', n⟩
        | ⟨.ok piece, st', n⟩ =>
          match childrenLoop ctx m st' rest with
          | ⟨.error e, st'', n'⟩ => ⟨.error e, st'', n + n'⟩
          | ⟨.ok pieces, st'', n'⟩ => ⟨.ok (piece :: pieces), st'', n + n'⟩
      else ⟨.error ("Chunk has no data: " ++ chunkId), st, 0⟩

/-- Embeds `ChunkAssembler.assembleFromChildren`: bulk-fetch all referenced
chunk ids in one request, then decode each id in the original list order
and concatenate. -/
def assembleFromChildren (ctx : AsmCtx) (st : CryptoState) (children : List String) :
    CryptoOut String :=
  let chunkDocs := ctx.storage.getDocuments children
  match childrenLoop ctx chunkDocs st children with
  | ⟨.error e, st', n⟩ => ⟨.error e, st', n⟩
  | ⟨.ok chunks, st', n⟩ => ⟨.ok (String.join chunks), st', n⟩

/-- Ordering used to sort eden entries by epoch (the source comparator is
`a.epoch - b.epoch`, i.e. ascending epoch; `Array.prototype.sort` is a
stable sort, modelled by insertion sort). -/
abbrev edenLeR (a b : String × EdenChunk) : Prop := a.2.epoch ≤ b.2.epoch

instance : IsTotal (String × EdenChunk) edenLeR := ⟨fun x y => le_total x.2.epoch y.2.epoch⟩

instance : IsTrans (String × EdenChunk) edenLeR := ⟨fun _ _ _ => le_trans⟩

/-- Decode the data of already-sorted eden entries in order. -/
def edenLoop (ctx : AsmCtx) (st : CryptoState) :
    List (String × EdenChunk) → CryptoOut (List String)
  | [] => ⟨.ok [], st, 0⟩
  | entry :: rest =>
    match chunkDecode ctx st entry.2.data with
    | ⟨.error e, st', n⟩ => ⟨.error e, st', n⟩
    | ⟨.ok piece, st', n⟩ =>
      match edenLoop ctx st' rest with
      | ⟨.error e, st'', n'⟩ => ⟨.error e, st'', n + n'⟩
      | ⟨.ok pieces, st'', n'⟩ => ⟨.ok (piece :: pieces), st'', n + n'⟩

/-- Embeds `ChunkAssembler.assembleFromEden`: sort the entries by ascending
epoch (stable sort, as `Array.prototype.sort`), decode each in that order
and concatenate. -/
def assembleFromEden (ctx : AsmCtx) (st : CryptoState) (eden : List (String × EdenChunk)) :
    CryptoOut String :=
  let sortedEntries := List.insertionSort edenLeR eden
  match edenLoop ctx st sortedEntries with
  | ⟨.error e, st', n⟩ => ⟨.error e, st', n⟩
  | ⟨.ok chunks, st', n⟩ => ⟨.ok (String.join chunks), st', n⟩

/-- Truthiness of `doc.eden && Object.keys(doc.eden).length > 0`. -/
def truthyEden : Option (List (String × EdenChunk)) → Bool
  | none => false
  | some l => !l.isEmpty

/-- Truthiness of `doc.children && doc.children.length > 0`. -/
def truthyChildren : Option (List String) → Bool
  | none => false
  | some l => !l.isEmpty

/-- Embeds `ChunkAssembler.assembleDocument`: strict priority chain of
direct data (truthy `data` field), eden cache, children chunks; `null` when
no source applies. -/
def assembleDocument (ctx : AsmCtx) (st : CryptoState) (doc : LiveSyncDocument) :
    CryptoOut (Option String) :=
  if truthyS doc.data then
    match chunkDecode ctx st (doc.data.getD "") with
    | ⟨.error e, st', n⟩ => ⟨.error e, st', n⟩
    | ⟨.ok s, st', n⟩ => ⟨.ok (some s), st', n⟩
  else if truthyEden doc.eden then
    match assembleFromEden ctx st (doc.eden.getD []) with
    | ⟨.error e, st', n⟩ => ⟨.error e, st', n⟩
    | ⟨.ok s, st', n⟩ => ⟨.ok (some s), st', n⟩
  else if truthyChildren doc.children then
    match assembleFromChildren ctx st (doc.children.getD []) with
    | ⟨.error e, st', n⟩ => ⟨.error e, st', n⟩
    | ⟨.ok s, st', n⟩ => ⟨.ok (some s), st', n⟩
  else ⟨.ok none, st, 0⟩

/-! ## Note repositories (`src/repositories`) -/

/-- Embeds `MemoryNoteRepository.search` over the repository's stored notes:
lower-case the query and keep notes whose path or content contains it. -/
def memorySearch (notes : List Note) (query : String) : List Note :=
  let lower := jsToLower query
  notes.filter (fun note =>
    strIncludes (jsToLower note.path) lower || strIncludes (jsToLower note.content) lower)

/-- Embeds `DiskNoteRepository.search` over the notes `getAll` would return:
a blank (empty or whitespace-only) query short-circuits to the empty list,
otherwise the same case-insensitive substring filter is applied. -/
def diskSearch (notes : List Note) (query : String) : List Note :=
  if jsTrim query == "" then []
  else
    let lower := jsToLower query
    notes.filter (fun note =>
      strIncludes (jsToLower note.path) lower || strIncludes (jsToLower note.content) lower)

/-- Search as the specification words it: blank query returns the empty
list, otherwise exactly the case-insensitive substring matches. -/
def specSearch (notes : List Note) (query : String) : List Note :=
  if jsTrim query == "" then []
  else
    notes.filter (fun note =>
      strIncludes (jsToLower note.path) (jsToLower query)
        || strIncludes (jsToLower note.content) (jsToLower query))

/-- Repository contents, keyed by note id (`MemoryNoteRepository` map). -/
def Repo : Type := String → Option Note

/-- Embeds `save`: `Map.set` keyed by the note's id. -/
def repoSave (r : Repo) (n : Note) : Repo :=
  fun k => if k = n.id then some n else r k

/-- Embeds `saveMany`: save each note in order. -/
def repoSaveMany (r : Repo) (ns : List Note) : Repo :=
  ns.foldl repoSave r

/-- Embeds `delete`: `Map.delete` by id. -/
def repoDelete (r : Repo) (id : String) : Repo :=
  fun k => if k = id then none else r k

/-- Embeds `deleteMany`: delete each id in order. -/
def repoDeleteMany (r : Repo) (ids : List String) : Repo :=
  ids.foldl repoDelete r

/-! ## Sync service (`src/services/sync-service.ts`, repository-backed) -/

/-- External calls a sync pass can make, in program order. -/
inductive Event where
  | getAllDocuments
  | getDatabaseInfo
  | getChanges (since : String)
  | saveMany (ids : List String)
  | deleteMany (ids : List String)
  | repoCount
  | updateState (lastSeq : String)
  deriving DecidableEq, Repr

/-- One row of the CouchDB changes feed (`include_docs=true`). -/
structure ChangeRow where
  id : String
  deleted : Bool := false
  doc : Option LiveSyncDocument := none
  deriving DecidableEq, Repr

/-- Response of `getChanges`. -/
structure ChangesFeed where
  results : List ChangeRow
  last_seq : String
  deriving DecidableEq, Repr

/-- Responses of the collaborators during one sync pass; `assemble` is the
injected `IDocumentAssembler`, which may throw. -/
structure SyncEnv where
  now : Int
  getAllDocuments : Except String (List LiveSyncDocument)
  getDatabaseInfo : Except String String
  getChanges : String → Except String ChangesFeed
  assemble : LiveSyncDocument → Except String (Option String)
  updateState : Except String Unit

/-- Counters returned by `processDocuments`, plus the notes it accumulated. -/
structure ProcessResult where
  processedCount : Nat
  skippedCount : Nat
  errorCount : Nat
  notes : List Note
  deriving DecidableEq, Repr

/-- Outcome of one document in the `processDocuments` loop. -/
inductive DocOutcome where
  | skipped
  | errored
  | note (n : Note)

/-- Filtering and assembly of one document, exactly in source order: skip
`h:`-prefixed and colon-containing ids, deleted flags, falsy path, falsy
type, and non-note types; then assemble, treating `null` and thrown errors
as per-document errors. -/
def processOneDoc (env : SyncEnv) (doc : LiveSyncDocument) : DocOutcome :=
  if jsStartsWith doc._id "h:" || jsStartsWith doc._id "h:+" then .skipped
  else if jsContainsChar doc._id ':' then .skipped
  else if doc.deleted || doc._deleted then .skipped
  else if !(truthyS doc.path) then .skipped
  else if !(truthyS doc.type) then .skipped
  else if doc.type != some "newnote" && doc.type != some "plain" then .skipped
  else
    match env.assemble doc with
    | .error _ => .errored
    | .ok none => .errored
    | .ok (some content) =>
      .note
        { id := doc._id
          path := doc.path.getD ""
          content := content
          mtime := if truthyI doc.mtime then doc.mtime.getD 0 else env.now
          ctime := if truthyI doc.ctime then doc.ctime.getD 0 else env.now
          size := doc.size.getD 0 }

/-- Loop of `processDocuments`, preserving document order. -/
def processLoop (env : SyncEnv) : List LiveSyncDocument → ProcessResult
  | [] => ⟨0, 0, 0, []⟩
  | doc :: rest =>
    let r := processLoop env rest
    match processOneDoc env doc with
    | .skipped => ⟨r.processedCount, r.skippedCount + 1, r.errorCount, r.notes⟩
    | .errored => ⟨r.processedCount, r.skippedCount, r.errorCount + 1, r.notes⟩
    | .note n => ⟨r.processedCount + 1, r.skippedCount, r.errorCount, n :: r.notes⟩

/-- Embeds `SyncService.processDocuments`: run the loop, then issue a single
bulk `saveMany` when at least one note was assembled. -/
def processDocuments (env : SyncEnv) (repo : Repo) (docs : List LiveSyncDocument) :
    ProcessResult × Repo × List Event :=
  let r := processLoop env docs
  if r.notes.isEmpty then (r, repo, [])
  else (r, repoSaveMany repo r.notes, [Event.saveMany (r.notes.map (fun n => n.id))])

/-- Result of one sync run: status and repository on exit, the trace of
external calls, and the thrown error if the run re-threw. -/
structure RunResult where
  status : SyncStatus
  repoState : Repo
  trace : List Event
  thrown : Option String

/-- Embeds `SyncService.fullSync`: guard, fetch all documents, process them,
read the database `update_seq`, read the note count, update the status,
persist the cursor; exceptions set the error status, and the `finally`
block clears `isRunning` on every exit path. -/
def runFullSync (env : SyncEnv) (st0 : SyncStatus) (repo0 : Repo) : RunResult :=
  if st0.isRunning then ⟨st0, repo0, [], none⟩
  else
    let st1 := { st0 with isRunning := true }
    match env.getAllDocuments with
    | .error e =>
      ⟨{ st1 with lastSyncSuccess := false, error := some e, isRunning := false },
        repo0, [.getAllDocuments], some e⟩
    | .ok documents =>
      match processDocuments env repo0 documents with
      | (result, repo1, saveEvs) =>
        match env.getDatabaseInfo with
        | .error e =>
          ⟨{ st1 with lastSyncSuccess := false, error := some e, isRunning := false },
            repo1, .getAllDocuments :: (saveEvs ++ [.getDatabaseInfo]), some e⟩
        | .ok updateSeq =>
          let st2 := { st1 with
            lastSeq := some updateSeq, lastSyncTime := some env.now,
            lastSyncSuccess := true, documentsCount := result.processedCount, error := none }
          let tr := Event.getAllDocuments ::
            (saveEvs ++ [.getDatabaseInfo, .repoCount, .updateState updateSeq])
          match env.updateState with
          | .error e =>
            ⟨{ st2 with lastSyncSuccess := false, error := some e, isRunning := false },
              repo1, tr, some e⟩
          | .ok _ => ⟨{ st2 with isRunning := false }, repo1, tr, none⟩

/-- Deletion test of one change row:
`change.deleted || doc?.deleted || doc?._deleted`. -/
def changeDeleted (ch : ChangeRow) : Bool :=
  ch.deleted ||
    (match ch.doc with
     | some d => d.deleted || d._deleted
     | none => false)

/-- Classification loop of `incrementalSync`: skip colon ids, collect
deleted ids, collect the documents of the remaining changes. -/
def classifyChanges : List ChangeRow → List LiveSyncDocument × List String
  | [] => ([], [])
  | ch :: rest =>
    let r := classifyChanges rest
    if jsContainsChar ch.id ':' then r
    else if changeDeleted ch then (r.1, ch.id :: r.2)
    else
      match ch.doc with
      | some d => (d :: r.1, r.2)
      | none => r

/-- Embeds `SyncService.incrementalSync`: guard, fetch the changes feed,
short-circuit on an empty feed, process changed documents, bulk-delete the
deleted ids, advance the cursor to `last_seq`, persist the cursor, read the
note count; exceptions set the error status and `finally` clears
`isRunning`. -/
def runIncrementalSync (env : SyncEnv) (st0 : SyncStatus) (repo0 : Repo) : RunResult :=
  if st0.isRunning then ⟨st0, repo0, [], none⟩
  else
    let st1 := { st0 with isRunning := true }
    let since := st0.lastSeq.getD ""
    match env.getChanges since with
    | .error e =>
      ⟨{ st1 with lastSyncSuccess := false, error := some e, isRunning := false },
        repo0, [.getChanges since], some e⟩
    | .ok changes =>
      if changes.results.isEmpty then
        ⟨{ st1 with
            lastSyncTime := some env.now, lastSyncSuccess := true,
            documentsCount := 0, error := none, isRunning := false },
          repo0, [.getChanges since], none⟩
      else
        let cls := classifyChanges changes.results
        let changedDocs := cls.1
        let deletedIds := cls.2
        match (if changedDocs.isEmpty then (⟨0, 0, 0, []⟩, repo0, [])
               else processDocuments env repo0 changedDocs : ProcessResult × Repo × List Event) with
        | (result, repo1, saveEvs) =>
          let repo2 := if deletedIds.isEmpty then repo1 else repoDeleteMany repo1 deletedIds
          let delEvs : List Event := if deletedIds.isEmpty then [] else [.deleteMany deletedIds]
          let st2 := { st1 with
            lastSeq := some changes.last_seq, lastSyncTime := some env.now,
            lastSyncSuccess := true, documentsCount := result.processedCount, error := none }
          let tr := Event.getChanges since :: (saveEvs ++ delEvs ++ [.updateState changes.last_seq])
          match env.updateState with
          | .error e =>
            ⟨{ st2 with lastSyncSuccess := false, error := some e, isRunning := false },
              repo2, tr, some e⟩
          | .ok _ => ⟨{ st2 with isRunning := false }, repo2, tr ++ [.repoCount], none⟩

/-- Embeds `SyncService.sync`: return immediately when a run is in flight,
otherwise run a full sync when no cursor is held and an incremental sync
otherwise. -/
def sync (env : SyncEnv) (st : SyncStatus) (repo : Repo) : RunResult :=
  if st.isRunning then ⟨st, repo, [], none⟩
  else if !(truthyS st.lastSeq) then runFullSync env st repo
  else runIncrementalSync env st repo

/-- Embeds `SyncService.initialize`: load the persisted state and adopt its
`lastSeq` when truthy.  The returned event list records the external calls
it makes besides the State Store read: there are none — in particular the
Note Repository is never consulted. -/
def initializeService (persistedLastSeq : Option String) (st : SyncStatus) :
    SyncStatus × List Event :=
  if truthyS persistedLastSeq then ({ st with lastSeq := persistedLastSeq }, [])
  else (st, [])

/-! ## Derived notions used by the theorems -/

/-- Data carried by the chunk stored under `id` in a bulk-fetch map. -/
def chunkDataIn (m : List (String × LiveSyncDocument)) (id : String) : String :=
  match mapGet m id with
  | some c => c.data.getD ""
  | none => ""

/-- Whether an event writes to the Note Repository. -/
def isRepoWrite : Event → Bool
  | .saveMany _ => true
  | .deleteMany _ => true
  | _ => false

/-- Whether an event deletes from the Note Repository. -/
def isDeleteEvent : Event → Bool
  | .deleteMany _ => true
  | _ => false

/-- No Note Repository write occurs after a State Store cursor write in the
given trace. -/
def noWriteAfterCursor : List Event → Prop
  | [] => True
  | e :: rest =>
    ((∃ s, e = Event.updateState s) → ∀ e' ∈ rest, isRepoWrite e' = false)
      ∧ noWriteAfterCursor rest

/-! ## Concrete fixtures for witnesses and counterexamples -/

/-- Document Store with no documents at all. -/
def storageEmpty : StorageEnv :=
  { getDocument := fun _ => none, getDocuments := fun _ => [] }

/-- Crypto context whose external HKDF routine always fails; the claims it
witnesses never reach it. -/
def cryptoFixture : CryptoCtx :=
  { passphrase := "pass", hkdf := fun _ _ _ => .error "hkdf failed" }

/-- Assembler with no passphrase configured, over the empty store. -/
def asmNoCrypto : AsmCtx := { storage := storageEmpty, crypto := none }

/-- Assembler with a passphrase configured, over the empty store. -/
def asmWithCrypto : AsmCtx := { storage := storageEmpty, crypto := some cryptoFixture }

/-- Chunk record for the bulk-fetch fixtures: content `A` (base64 `QQ==`). -/
def chunkA : LiveSyncDocument := { _id := "a", type := some "leaf", data := some "QQ==" }

/-- Chunk record for the bulk-fetch fixtures: content `B` (base64 `Qg==`). -/
def chunkB : LiveSyncDocument := { _id := "b", type := some "leaf", data := some "Qg==" }

/-- Store whose bulk fetch answers `[a, b]` in that map order. -/
def storageAB : StorageEnv :=
  { getDocument := fun _ => none,
    getDocuments := fun _ => [("a", chunkA), ("b", chunkB)] }

/-- Store whose bulk fetch answers the same chunks in the reversed order. -/
def storageBA : StorageEnv :=
  { getDocument := fun _ => none,
    getDocuments := fun _ => [("b", chunkB), ("a", chunkA)] }

/-- Children-only record referencing chunks `a` then `b`. -/
def docChildren : LiveSyncDocument := { _id := "x.md", children := some ["a", "b"] }

/-- Eden-only record whose entry epochs are out of insertion order. -/
def docEden : LiveSyncDocument :=
  { _id := "e.md",
    eden := some
      [("c1", { data := "Rmlyc3Qg", epoch := 2 }), ("c2", { data := "U2Vjb25k", epoch := 1 })] }

/-- Record with all three content sources present at once. -/
def docAllSources : LiveSyncDocument :=
  { docEden with _id := "all.md", data := some "SGVsbG8gV29ybGQ=", children := some ["a", "b"] }

/-- Record with no content source at all. -/
def docNoSource : LiveSyncDocument := { _id := "none.md" }

/-- Sync-parameters record carrying a salt, for the crypto witnesses. -/
def saltDoc : LiveSyncDocument :=
  { _id := syncParamsDocId, pbkdf2salt := some "c2FsdA==" }

/-- Store that serves the sync-parameters record. -/
def storageWithSalt : StorageEnv :=
  { getDocument := fun id => if id == syncParamsDocId then some saltDoc else none,
    getDocuments := fun _ => [] }

/-- Stored note used by the repository fixtures. -/
def noteW : Note :=
  { id := "n1", path := "folder/note.md", content := "Hello world", mtime := 1, ctime := 1, size := 11 }

/-- Collaborator responses: empty store, no changes, everything succeeds. -/
def envSync0 : SyncEnv :=
  { now := 0, getAllDocuments := .ok [], getDatabaseInfo := .ok "9",
    getChanges := fun s => .ok { results := [], last_seq := s },
    assemble := fun _ => .ok none, updateState := .ok () }

/-- Note document served by `envSyncOneNote`. -/
def docNoteW : LiveSyncDocument :=
  { _id := "note.md", type := some "newnote", path := some "note.md",
    data := some "QQ==", mtime := some 5, ctime := some 4, size := some 1 }

/-- Collaborator responses: one assemblable note document. -/
def envSyncOneNote : SyncEnv :=
  { envSync0 with getAllDocuments := .ok [docNoteW], assemble := fun _ => .ok (some "A") }

/-- Status at service construction. -/
def statusInit : SyncStatus :=
  { isRunning := false, lastSyncTime := none, lastSyncSuccess := false, documentsCount := 0 }

/-- Note Repository holding zero notes. -/
def emptyRepo : Repo := fun _ => none

/-! ## Helper lemmas -/

theorem truthyS_some_iff {s : String} : truthyS (some s) = true ↔ s ≠ "" := by
  simp [truthyS]

theorem truthyS_none : truthyS none = false := rfl

theorem truthyEden_none : truthyEden none = false := rfl

theorem truthyChildren_none : truthyChildren none = false := rfl

theorem charsContains_nil (hay : List Char) : charsContains hay [] = true := by
  cases hay <;> simp [charsContains, charsPrefix, List.isEmpty]

theorem strIncludes_empty (s : String) : strIncludes s "" = true := by
  simpa [strIncludes] using charsContains_nil s.data

/-! ## C6: strategy selection is a strict priority chain -/

/-- C6: `assembleDocument` uses the inline `data` field alone when it is a
non-empty string; otherwise the eden map alone when present and non-empty;
otherwise the `children` list alone when present and non-empty; otherwise
it returns `null`.  An empty-string `data` field counts as absent, and the
result of the selected strategy never depends on the fields of the other
strategies. -/
theorem assembleDocument_strategy_priority (ctx : AsmCtx) (st : CryptoState)
    (doc : LiveSyncDocument) :
    (truthyS doc.data = true →
      assembleDocument ctx st doc =
        assembleDocument ctx st { doc with eden := none, children := none }) ∧
    (truthyS doc.data = false → truthyEden doc.eden = true →
      assembleDocument ctx st doc =
        assembleDocument ctx st { doc with data := none, children := none }) ∧
    (truthyS doc.data = false → truthyEden doc.eden = false → truthyChildren doc.children = true →
      assembleDocument ctx st doc =
        assembleDocument ctx st { doc with data := none, eden := none }) ∧
    (truthyS doc.data = false → truthyEden doc.eden = false → truthyChildren doc.children = false →
      assembleDocument ctx st doc = ⟨.ok none, st, 0⟩) ∧
    (assembleDocument ctx st { doc with data := some "" } =
      assembleDocument ctx st { doc with data := none }) := by
  refine ⟨?_, ?_, ?_, ?_, ?_⟩
  · intro h; simp [assembleDocument, h]
  · intro h1 h2
    simp [assembleDocument, h1, h2, truthyS_none, truthyEden_none, truthyChildren_none]
  · intro h1 h2 h3
    simp [assembleDocument, h1, h2, h3, truthyS_none, truthyEden_none, truthyChildren_none]
  · intro h1 h2 h3; simp [assembleDocument, h1, h2, h3]
  · simp [assembleDocument, truthyS]

/-- Witness for C6 at concrete records: with all three sources present the
direct field wins (and eden/children are irrelevant); with no source the
result is `null`. -/
theorem assembleDocument_strategy_priority_witness :
    assembleDocument asmNoCrypto {} docAllSources =
      assembleDocument asmNoCrypto {} { docAllSources with eden := none, children := none } ∧
    assembleDocument asmNoCrypto {} docNoSource = ⟨.ok none, {}, 0⟩ :=
  ⟨(assembleDocument_strategy_priority asmNoCrypto {} docAllSources).1 (by decide),
    (assembleDocument_strategy_priority asmNoCrypto {} docNoSource).2.2.2.1
      (by decide) (by decide) (by decide)⟩

/-! ## C10: unmarked payload handling depends on passphrase configuration -/

/-- C10: for a record whose `data` field holds a non-empty payload that does
not start with the `%=` marker, assembly with no passphrase base64-decodes
the payload, while assembly with a passphrase routes through
`LiveSyncCrypto.decrypt` and returns the payload verbatim; the two diverge
whenever the payload differs from its own base64 decoding, as it does at
`aGVsbG8=`. -/
theorem assembleDocument_unmarked_divergence (env : StorageEnv) (c : CryptoCtx)
    (st : CryptoState) (doc : LiveSyncDocument) (p : String)
    (hdoc : doc.data = some p) (hne : p ≠ "") (hmark : isEncrypted p = false) :
    assembleDocument ⟨env, none⟩ st doc = ⟨.ok (some (base64ToUtf8 p)), st, 0⟩ ∧
    assembleDocument ⟨env, some c⟩ st doc = ⟨.ok (some p), st, 0⟩ ∧
    base64ToUtf8 "aGVsbG8=" ≠ "aGVsbG8=" := by
  have ht : truthyS (some p) = true := truthyS_some_iff.mpr hne
  refine ⟨?_, ?_, by decide⟩
  · simp [assembleDocument, ht, chunkDecode, hdoc]
  · simp [assembleDocument, ht, chunkDecode, decrypt, hdoc, hmark]

/-- Witness for C10 at the concrete unmarked payload `aGVsbG8=`: the
no-passphrase configuration yields `hello`, the passphrase configuration
yields `aGVsbG8=` itself. -/
theorem assembleDocument_unmarked_divergence_witness :
    assembleDocument ⟨storageEmpty, none⟩ {} { _id := "u.md", data := some "aGVsbG8=" } =
      ⟨.ok (some (base64ToUtf8 "aGVsbG8=")), {}, 0⟩ ∧
    assembleDocument ⟨storageEmpty, some cryptoFixture⟩ {}
        { _id := "u.md", data := some "aGVsbG8=" } = ⟨.ok (some "aGVsbG8="), {}, 0⟩ ∧
    base64ToUtf8 "aGVsbG8=" ≠ "aGVsbG8=" :=
  assembleDocument_unmarked_divergence storageEmpty cryptoFixture {}
    { _id := "u.md", data := some "aGVsbG8=" } "aGVsbG8=" rfl (by decide) (by decide)

/-! ## C8: blank-query search -/

/-- Counterexample to C8 as stated: `MemoryNoteRepository.search` with the
blank query `""` on a repository holding one note returns that note, not
the empty list. -/
theorem memorySearch_blank_counterexample :
    memorySearch [noteW] "" = [noteW] ∧ memorySearch [noteW] "" ≠ [] := by
  constructor <;> decide

/-- C8 as amended: `DiskNoteRepository.search` implements the specified
search (blank query returns the empty list, otherwise the case-insensitive
substring filter over path and content); `MemoryNoteRepository.search`
implements it only for non-blank queries, and on a blank query returns
every stored note instead. -/
theorem search_blank_query_semantics (notes : List Note) (query : String) :
    diskSearch notes query = specSearch notes query ∧
    (jsTrim query ≠ "" → memorySearch notes query = specSearch notes query) ∧
    memorySearch notes "" = notes := by
  refine ⟨?_, ?_, ?_⟩
  · simp [diskSearch, specSearch]
  · intro h
    simp [memorySearch, specSearch, h]
  · have hpred : ∀ n ∈ notes,
        (strIncludes (jsToLower n.path) (jsToLower "")
          || strIncludes (jsToLower n.content) (jsToLower "")) = true := by
      intro n _
      have h1 : jsToLower "" = "" := rfl
      simp [h1, strIncludes, charsContains_nil]
    simpa [memorySearch] using List.filter_eq_self.mpr hpred

/-- Witness for C8's amended claim at a concrete repository and queries. -/
theorem search_blank_query_semantics_witness :
    diskSearch [noteW] "  " = specSearch [noteW] "  " ∧
    memorySearch [noteW] "FOLDER" = specSearch [noteW] "FOLDER" ∧
    memorySearch [noteW] "" = [noteW] :=
  ⟨(search_blank_query_semantics [noteW] "  ").1,
    (search_blank_query_semantics [noteW] "FOLDER").2.1 (by decide),
    (search_blank_query_semantics [noteW] "").2.2⟩

/-! ## C5: salt caching and fail-fast behavior -/

/-- Counterexample to C5 as stated: over a store with no sync-parameters
record, a first decrypt of a marked payload queries the store once and
fails, leaves the crypto state unchanged, and a second decrypt of a marked
payload queries the store again (one more `getDocument` call) instead of
failing fast without re-querying. -/
theorem decrypt_salt_refetch_counterexample :
    (decrypt cryptoFixture storageEmpty ⟨none⟩ "%=x").storeQueries = 1 ∧
    (decrypt cryptoFixture storageEmpty ⟨none⟩ "%=x").state = ⟨none⟩ ∧
    (decrypt cryptoFixture storageEmpty
      ((decrypt cryptoFixture storageEmpty ⟨none⟩ "%=x").state) "%=x").storeQueries = 1 :=
  ⟨rfl, rfl, rfl⟩

/-- C5 as amended: the salt is fetched at most once after a success — once
cached, decrypts make no further store queries — but a failed fetch caches
nothing: the state is left unchanged, and every subsequent decrypt of a
marked payload re-queries the store for the salt record and fails again. -/
theorem salt_cached_only_on_success (c : CryptoCtx) (env : StorageEnv) (st : CryptoState) :
    (∀ s, st.pbkdf2Salt = some s →
      getPBKDF2Salt env st = ⟨.ok s, st, 0⟩ ∧
      ∀ d, (decrypt c env st d).storeQueries = 0 ∧ (decrypt c env st d).state = st) ∧
    (∀ s, (getPBKDF2Salt env st).result = .ok s →
      (getPBKDF2Salt env st).state.pbkdf2Salt = some s ∧
      getPBKDF2Salt env (getPBKDF2Salt env st).state =
        ⟨.ok s, (getPBKDF2Salt env st).state, 0⟩) ∧
    (∀ e, (getPBKDF2Salt env st).result = .error e →
      (getPBKDF2Salt env st).state = st ∧ st.pbkdf2Salt = none ∧
      ∀ d, isEncrypted d = true →
        (decrypt c env st d).storeQueries = 1 ∧
        ∃ e', (decrypt c env st d).result = .error e') := by
  refine ⟨?_, ?_, ?_⟩
  · intro s hs
    have hsalt : getPBKDF2Salt env st = ⟨.ok s, st, 0⟩ := by
      simp [getPBKDF2Salt, hs]
    refine ⟨hsalt, fun d => ?_⟩
    by_cases hd : isEncrypted d
    · simp only [decrypt, hd, Bool.not_true, hsalt]
      cases c.hkdf d c.passphrase s <;> simp
    · simp [decrypt, hd]
  · intro s hok
    cases hcache : st.pbkdf2Salt with
    | some s0 =>
      have h1 : getPBKDF2Salt env st = ⟨.ok s0, st, 0⟩ := by simp [getPBKDF2Salt, hcache]
      rw [h1] at hok
      simp at hok
      subst hok
      rw [h1]
      exact ⟨hcache, h1⟩
    | none =>
      cases hdoc : env.getDocument syncParamsDocId with
      | none => simp [getPBKDF2Salt, hcache, hdoc] at hok
      | some sp =>
        by_cases hfield : truthyS sp.pbkdf2salt
        · have h1 : getPBKDF2Salt env st =
              ⟨.ok (base64DecodeBytes (sp.pbkdf2salt.getD "")),
                { st with pbkdf2Salt := some (base64DecodeBytes (sp.pbkdf2salt.getD "")) }, 1⟩ := by
            simp [getPBKDF2Salt, hcache, hdoc, hfield]
          rw [h1] at hok
          simp at hok
          subst hok
          rw [h1]
          exact ⟨rfl, by simp [getPBKDF2Salt]⟩
        · simp [getPBKDF2Salt, hcache, hdoc, hfield] at hok
  · intro e herr
    cases hcache : st.pbkdf2Salt with
    | some s0 => simp [getPBKDF2Salt, hcache] at herr
    | none =>
      have hstate : (getPBKDF2Salt env st).state = st := by
        unfold getPBKDF2Salt
        cases hdoc : env.getDocument syncParamsDocId with
        | none => simp [hcache, hdoc]
        | some sp =>
          by_cases hfield : truthyS sp.pbkdf2salt
          · rw [getPBKDF2Salt, hcache, hdoc] at herr
            simp [hfield] at herr
          · simp [hcache, hdoc, hfield]
      refine ⟨hstate, rfl, fun d hd => ?_⟩
      have hq : (getPBKDF2Salt env st).storeQueries = 1 := by
        unfold getPBKDF2Salt
        cases hdoc : env.getDocument syncParamsDocId with
        | none => simp [hcache, hdoc]
        | some sp =>
          by_cases hfield : truthyS sp.pbkdf2salt
          · rw [getPBKDF2Salt, hcache, hdoc] at herr
            simp [hfield] at herr
          · simp [hcache, hdoc, hfield]
      have hshape : getPBKDF2Salt env st = ⟨.error e, st, 1⟩ := by
        rcases hget : getPBKDF2Salt env st with ⟨r, s', n⟩
        rw [hget] at herr hstate hq
        simp at herr hstate hq
        rw [herr, hstate, hq]
      simp [decrypt, hd, hshape]

/-- Witness for C5's amended claim: a cached salt makes no queries; a
successful fetch over a store holding the record caches the salt; a failed
fetch over the empty store re-queries on the next marked decrypt. -/
theorem salt_cached_only_on_success_witness :
    (decrypt cryptoFixture storageEmpty ⟨some [1, 2]⟩ "%=x").storeQueries = 0 ∧
    (getPBKDF2Salt storageWithSalt ⟨none⟩).state.pbkdf2Salt = some (base64DecodeBytes "c2FsdA==") ∧
    (decrypt cryptoFixture storageEmpty ⟨none⟩ "%=x").storeQueries = 1 := by
  refine ⟨((salt_cached_only_on_success cryptoFixture storageEmpty ⟨some [1, 2]⟩).1
      [1, 2] rfl).2 "%=x" |>.1,
    ((salt_cached_only_on_success cryptoFixture storageWithSalt ⟨none⟩).2.1
      (base64DecodeBytes "c2FsdA==") rfl).1,
    (((salt_cached_only_on_success cryptoFixture storageEmpty ⟨none⟩).2.2
      _ rfl).2.2 "%=x" (by decide)).1⟩

/-! ## C2: children assembly order -/

theorem filter_key_length_le_one (m : List (String × LiveSyncDocument)) (k : String)
    (hkeys : (m.map Prod.fst).Nodup) :
    (m.filter (fun p => p.1 == k)).length ≤ 1 := by
  induction m with
  | nil => simp
  | cons p t ih =>
    simp only [List.map_cons, List.nodup_cons] at hkeys
    by_cases hpk : p.1 == k
    · have hnil : t.filter (fun q => q.1 == k) = [] := by
        rw [List.filter_eq_nil_iff]
        intro q hq hqk
        have h1 : q.1 = k := by simpa using hqk
        have h2 : p.1 = k := by simpa using hpk
        exact hkeys.1 (h2 ▸ h1 ▸ List.mem_map_of_mem Prod.fst hq)
      simp [List.filter_cons, hpk, hnil]
    · simp only [List.filter_cons, hpk, if_false, Bool.false_eq_true]
      exact ih hkeys.2

theorem perm_length_le_one_eq {α : Type} {l₁ l₂ : List α}
    (hperm : l₁.Perm l₂) (hlen : l₂.length ≤ 1) : l₁ = l₂ := by
  match l₂, hlen with
  | [], _ => exact hperm.eq_nil
  | [a], _ => exact List.perm_singleton.mp hperm
  | a :: b :: t, hlen => simp at hlen

theorem mapGet_perm {m₁ m₂ : List (String × LiveSyncDocument)}
    (hperm : m₁.Perm m₂) (hkeys : (m₂.map Prod.fst).Nodup) (k : String) :
    mapGet m₁ k = mapGet m₂ k := by
  have hfilter : (m₁.filter (fun p => p.1 == k)).Perm (m₂.filter (fun p => p.1 == k)) :=
    hperm.filter _
  have heq : m₁.filter (fun p => p.1 == k) = m₂.filter (fun p => p.1 == k) :=
    perm_length_le_one_eq hfilter (filter_key_length_le_one m₂ k hkeys)
  simp [mapGet, heq]

theorem childrenLoop_noCrypto (env : StorageEnv) (m : List (String × LiveSyncDocument))
    (st : CryptoState) (l : List String)
    (hcover : ∀ id ∈ l, ∃ c, mapGet m id = some c ∧ truthyS c.data = true) :
    childrenLoop ⟨env, none⟩ m st l =
      ⟨.ok (l.map (fun id => base64ToUtf8 (chunkDataIn m id))), st, 0⟩ := by
  induction l with
  | nil => simp [childrenLoop]
  | cons id rest ih =>
    obtain ⟨c, hc, hd⟩ := hcover id (by simp)
    have hrest := ih (fun i hi => hcover i (by simp [hi]))
    simp [childrenLoop, hc, hd, chunkDecode, hrest, chunkDataIn]

/-- C2: on a record whose only content source is a non-empty `children`
list, when every referenced id resolves in the bulk-fetch map to a chunk
with truthy `data`, `assembleDocument` returns exactly the concatenation of
the decoded chunk contents in the order of the `children` list, and the
result is unchanged when the bulk-fetch map lists its entries in any other
order (given map keys are unduplicated). -/
theorem assembleDocument_children_order
    (env₁ env₂ : StorageEnv) (st : CryptoState) (doc : LiveSyncDocument) (ids : List String)
    (hdata : truthyS doc.data = false) (heden : truthyEden doc.eden = false)
    (hch : doc.children = some ids) (hne : ids ≠ [])
    (hcover : ∀ id ∈ ids, ∃ c,
      mapGet (env₁.getDocuments ids) id = some c ∧ truthyS c.data = true)
    (hperm : (env₂.getDocuments ids).Perm (env₁.getDocuments ids))
    (hkeys : ((env₁.getDocuments ids).map Prod.fst).Nodup) :
    assembleDocument ⟨env₁, none⟩ st doc =
      ⟨.ok (some (String.join (ids.map (fun id =>
        base64ToUtf8 (chunkDataIn (env₁.getDocuments ids) id))))), st, 0⟩ ∧
    assembleDocument ⟨env₂, none⟩ st doc = assembleDocument ⟨env₁, none⟩ st doc := by
  have hch' : truthyChildren (some ids) = true := by
    simp [truthyChildren, hne]
  have hmg : ∀ k, mapGet (env₂.getDocuments ids) k = mapGet (env₁.getDocuments ids) k :=
    fun k => mapGet_perm hperm hkeys k
  have hcover₂ : ∀ id ∈ ids, ∃ c,
      mapGet (env₂.getDocuments ids) id = some c ∧ truthyS c.data = true := by
    intro id hi
    rw [hmg id]
    exact hcover id hi
  have h1 : assembleFromChildren ⟨env₁, none⟩ st ids =
      ⟨.ok (String.join (ids.map (fun id =>
        base64ToUtf8 (chunkDataIn (env₁.getDocuments ids) id)))), st, 0⟩ := by
    simp [assembleFromChildren, childrenLoop_noCrypto env₁ _ st ids hcover]
  have h2 : assembleFromChildren ⟨env₂, none⟩ st ids =
      ⟨.ok (String.join (ids.map (fun id =>
        base64ToUtf8 (chunkDataIn (env₂.getDocuments ids) id)))), st, 0⟩ := by
    simp [assembleFromChildren, childrenLoop_noCrypto env₂ _ st ids hcover₂]
  have hdat : ids.map (fun id => base64ToUtf8 (chunkDataIn (env₂.getDocuments ids) id)) =
      ids.map (fun id => base64ToUtf8 (chunkDataIn (env₁.getDocuments ids) id)) :=
    List.map_congr_left (fun id _ => by simp [chunkDataIn, hmg id])
  constructor
  · simp [assembleDocument, hdata, heden, hch', hch, h1]
  · simp [assembleDocument, hdata, heden, hch', hch, h1, h2, hdat]

/-- Witness for C2 at the spec's scenario: record with children `[a, b]`,
bulk fetch answering `b ↦ B, a ↦ A` in either map order, assembling to
`AB`. -/
theorem assembleDocument_children_order_witness :
    assembleDocument { storage := storageAB, crypto := none } {} docChildren =
      ⟨.ok (some (String.join (["a", "b"].map (fun id =>
        base64ToUtf8 (chunkDataIn (storageAB.getDocuments ["a", "b"]) id))))), {}, 0⟩ ∧
    assembleDocument { storage := storageBA, crypto := none } {} docChildren =
      assembleDocument { storage := storageAB, crypto := none } {} docChildren ∧
    assembleDocument { storage := storageAB, crypto := none } {} docChildren =
      ⟨.ok (some "AB"), {}, 0⟩ := by
  have h := assembleDocument_children_order storageAB storageBA {} docChildren ["a", "b"]
    (by decide) (by decide) rfl (by decide)
    (by
      intro id hid
      simp only [List.mem_cons, List.not_mem_nil, or_false] at hid
      rcases hid with rfl | rfl
      · exact ⟨chunkA, by decide, by decide⟩
      · exact ⟨chunkB, by decide, by decide⟩)
    (by decide) (by decide)
  exact ⟨h.1, h.2, by rw [h.1]; rfl⟩

/-! ## C7: eden assembly order -/

theorem edenLoop_noCrypto (env : StorageEnv) (st : CryptoState)
    (l : List (String × EdenChunk)) :
    edenLoop ⟨env, none⟩ st l = ⟨.ok (l.map (fun e => base64ToUtf8 e.2.data)), st, 0⟩ := by
  induction l with
  | nil => simp [edenLoop]
  | cons e rest ih => simp [edenLoop, chunkDecode, ih]

theorem perm_pairwise_key_lt_eq {α : Type} (key : α → Int) :
    ∀ {l₁ l₂ : List α}, l₁.Perm l₂ →
      l₁.Pairwise (fun a b => key a < key b) →
      l₂.Pairwise (fun a b => key a < key b) → l₁ = l₂ := by
  intro l₁
  induction l₁ with
  | nil =>
    intro l₂ hp _ _
    exact (hp.symm.eq_nil).symm
  | cons a t ih =>
    intro l₂ hp h1 h2
    cases l₂ with
    | nil => exact (List.cons_ne_nil a t hp.eq_nil).elim
    | cons b u =>
      by_cases hab : a = b
      · subst hab
        rw [ih hp.cons_inv h1.of_cons h2.of_cons]
      · exfalso
        have ha2 : a ∈ u := by
          rcases List.mem_cons.mp (hp.mem_iff.mp (List.mem_cons_self a t)) with h | h
          · exact absurd h hab
          · exact h
        have hb1 : b ∈ t := by
          rcases List.mem_cons.mp (hp.symm.mem_iff.mp (List.mem_cons_self b u)) with h | h
          · exact absurd h.symm hab
          · exact h
        have hba : key a < key b := (List.pairwise_cons.mp h1).1 b hb1
        have hab' : key b < key a := (List.pairwise_cons.mp h2).1 a ha2
        exact absurd hba (not_lt.mpr hab'.le)

theorem pairwise_lt_of_sorted_nodup (l : List (String × EdenChunk))
    (hs : List.Sorted edenLeR l)
    (hn : (l.map (fun e => e.2.epoch)).Nodup) :
    l.Pairwise (fun a b => a.2.epoch < b.2.epoch) := by
  have hle : l.Pairwise edenLeR := hs
  have hne : l.Pairwise (fun a b => a.2.epoch ≠ b.2.epoch) := List.pairwise_map.mp hn
  exact (hle.and hne).imp (fun h => lt_of_le_of_ne h.1 h.2)

/-- C7: on a record whose only content source is a non-empty eden map with
pairwise-distinct epochs, `assembleDocument` returns the concatenation of
the decoded entry contents sorted by ascending epoch, and the result of
eden assembly is the same for any permutation of the map's entry order. -/
theorem assembleDocument_eden_order
    (env : StorageEnv) (st : CryptoState) (doc : LiveSyncDocument)
    (eden₁ eden₂ : List (String × EdenChunk))
    (hdata : truthyS doc.data = false) (heden : doc.eden = some eden₁) (hne : eden₁ ≠ [])
    (hperm : eden₂.Perm eden₁)
    (hdist : (eden₁.map (fun e => e.2.epoch)).Nodup) :
    (∃ l : List (String × EdenChunk), l.Perm eden₁ ∧
      l.Pairwise (fun a b => a.2.epoch < b.2.epoch) ∧
      assembleDocument ⟨env, none⟩ st doc =
        ⟨.ok (some (String.join (l.map (fun e => base64ToUtf8 e.2.data)))), st, 0⟩) ∧
    assembleFromEden ⟨env, none⟩ st eden₂ = assembleFromEden ⟨env, none⟩ st eden₁ := by
  have hsorted₁ :
      (List.insertionSort edenLeR eden₁).Pairwise (fun a b => a.2.epoch < b.2.epoch) :=
    pairwise_lt_of_sorted_nodup _ (List.sorted_insertionSort edenLeR eden₁)
      (((List.perm_insertionSort edenLeR eden₁).symm.map (fun e => e.2.epoch)).nodup hdist)
  constructor
  · refine ⟨List.insertionSort edenLeR eden₁, List.perm_insertionSort edenLeR eden₁,
      hsorted₁, ?_⟩
    have heden' : truthyEden (some eden₁) = true := by simp [truthyEden, hne]
    simp [assembleDocument, hdata, heden, heden', assembleFromEden,
      edenLoop_noCrypto]
  · have hdist₂ : (eden₂.map (fun e => e.2.epoch)).Nodup :=
      ((hperm.symm).map (fun e => e.2.epoch)).nodup hdist
    have hsorted₂ :
        (List.insertionSort edenLeR eden₂).Pairwise (fun a b => a.2.epoch < b.2.epoch) :=
      pairwise_lt_of_sorted_nodup _ (List.sorted_insertionSort edenLeR eden₂)
        (((List.perm_insertionSort edenLeR eden₂).symm.map (fun e => e.2.epoch)).nodup hdist₂)
    have hp : (List.insertionSort edenLeR eden₂).Perm (List.insertionSort edenLeR eden₁) :=
      ((List.perm_insertionSort edenLeR eden₂).trans hperm).trans
        (List.perm_insertionSort edenLeR eden₁).symm
    have heq : List.insertionSort edenLeR eden₂ = List.insertionSort edenLeR eden₁ :=
      perm_pairwise_key_lt_eq (fun e => e.2.epoch) hp hsorted₂ hsorted₁
    simp [assembleFromEden, heq]

/-- Witness for C7 at the spec's scenario: eden entries with epochs 2 and 1
assemble to `SecondFirst ` and the entry order in the map is irrelevant. -/
theorem assembleDocument_eden_order_witness :
    assembleFromEden ⟨storageEmpty, none⟩ {}
        [("c2", { data := "U2Vjb25k", epoch := 1 }), ("c1", { data := "Rmlyc3Qg", epoch := 2 })] =
      assembleFromEden ⟨storageEmpty, none⟩ {}
        [("c1", { data := "Rmlyc3Qg", epoch := 2 }), ("c2", { data := "U2Vjb25k", epoch := 1 })] ∧
    assembleDocument ⟨storageEmpty, none⟩ {} docEden = ⟨.ok (some "SecondFirst "), {}, 0⟩ := by
  have h := assembleDocument_eden_order storageEmpty {} docEden
    [("c1", { data := "Rmlyc3Qg", epoch := 2 }), ("c2", { data := "U2Vjb25k", epoch := 1 })]
    [("c2", { data := "U2Vjb25k", epoch := 1 }), ("c1", { data := "Rmlyc3Qg", epoch := 2 })]
    (by decide) rfl (by decide) (by decide) (by decide)
  exact ⟨h.2, by rfl⟩

/-! ## C1: run exclusivity and guard release -/

theorem runFullSync_clears_guard (env : SyncEnv) (st : SyncStatus) (repo : Repo)
    (h : st.isRunning = false) :
    (runFullSync env st repo).status.isRunning = false := by
  unfold runFullSync
  rw [if_neg (by simp [h])]
  cases hga : env.getAllDocuments with
  | error e => rfl
  | ok docs =>
    cases hdb : env.getDatabaseInfo with
    | error e => rfl
    | ok seq =>
      cases hup : env.updateState with
      | error e => rfl
      | ok u => rfl

theorem runIncrementalSync_clears_guard (env : SyncEnv) (st : SyncStatus) (repo : Repo)
    (h : st.isRunning = false) :
    (runIncrementalSync env st repo).status.isRunning = false := by
  unfold runIncrementalSync
  rw [if_neg (by simp [h])]
  dsimp only
  cases hgc : env.getChanges (st.lastSeq.getD "") with
  | error e => simp [hgc]
  | ok changes =>
    cases hres : changes.results.isEmpty with
    | true => simp [hgc, hres]
    | false =>
      cases hup : env.updateState with
      | error e => simp [hgc, hres, hup]
      | ok u => simp [hgc, hres, hup]

/-- C1: a `sync()` call made while a run is in flight returns immediately,
leaving the status, the repository and the trace of external calls
untouched (in particular no `getAllDocuments`, `getChanges` or
`getDatabaseInfo` call is made and nothing is thrown); and any run entered
with the guard free clears `isRunning` on every exit path, success or
throw, of full and incremental sync alike. -/
theorem sync_run_exclusivity (env : SyncEnv) (st : SyncStatus) (repo : Repo) :
    (st.isRunning = true → sync env st repo = ⟨st, repo, [], none⟩) ∧
    (st.isRunning = false →
      (sync env st repo).status.isRunning = false ∧
      (runFullSync env st repo).status.isRunning = false ∧
      (runIncrementalSync env st repo).status.isRunning = false) := by
  constructor
  · intro h
    simp [sync, h]
  · intro h
    refine ⟨?_, runFullSync_clears_guard env st repo h, runIncrementalSync_clears_guard env st repo h⟩
    unfold sync
    rw [if_neg (by simp [h])]
    cases htr : truthyS st.lastSeq with
    | false => simpa using runFullSync_clears_guard env st repo h
    | true => simpa using runIncrementalSync_clears_guard env st repo h

/-- Witness for C1: with the guard taken, `sync` over concrete collaborators
is a no-op; with the guard free, both a full run and a failing run end with
the guard released. -/
theorem sync_run_exclusivity_witness :
    sync envSync0 { statusInit with isRunning := true } emptyRepo =
      ⟨{ statusInit with isRunning := true }, emptyRepo, [], none⟩ ∧
    (sync envSync0 statusInit emptyRepo).status.isRunning = false :=
  ⟨(sync_run_exclusivity envSync0 { statusInit with isRunning := true } emptyRepo).1 rfl,
    ((sync_run_exclusivity envSync0 statusInit emptyRepo).2 rfl).1⟩

/-! ## C3: cursor persisted only after note writes -/

theorem processDocuments_events (env : SyncEnv) (repo : Repo) (docs : List LiveSyncDocument) :
    (processDocuments env repo docs).2.2 = [] ∨
    ∃ ids, (processDocuments env repo docs).2.2 = [Event.saveMany ids] := by
  unfold processDocuments
  cases h : (processLoop env docs).notes.isEmpty with
  | false =>
    right
    exact ⟨(processLoop env docs).notes.map (fun n => n.id), by simp [h]⟩
  | true =>
    left
    simp [h]

theorem runFullSync_cursor_after_writes (env : SyncEnv) (st : SyncStatus) (repo : Repo) :
    noWriteAfterCursor (runFullSync env st repo).trace := by
  unfold runFullSync
  by_cases hrun : st.isRunning = true
  · simp [hrun, noWriteAfterCursor]
  · rw [if_neg hrun]
    dsimp only
    cases hga : env.getAllDocuments with
    | error e => simp [noWriteAfterCursor, isRepoWrite]
    | ok docs =>
      rcases hp : processDocuments env repo docs with ⟨res, rp, evs⟩
      have hevs := processDocuments_events env repo docs
      rw [hp] at hevs
      simp only at hevs
      rcases hevs with hevs | ⟨ids, hevs⟩ <;> subst hevs <;>
        cases hdb : env.getDatabaseInfo <;>
          cases hup : env.updateState <;>
            simp [hp, hdb, hup, noWriteAfterCursor, isRepoWrite]

theorem runIncrementalSync_cursor_after_writes (env : SyncEnv) (st : SyncStatus) (repo : Repo) :
    noWriteAfterCursor (runIncrementalSync env st repo).trace := by
  unfold runIncrementalSync
  by_cases hrun : st.isRunning = true
  · simp [hrun, noWriteAfterCursor]
  · rw [if_neg hrun]
    dsimp only
    cases hgc : env.getChanges (st.lastSeq.getD "") with
    | error e => simp [hgc, noWriteAfterCursor, isRepoWrite]
    | ok changes =>
      cases hres : changes.results.isEmpty with
      | true => simp [hgc, hres, noWriteAfterCursor, isRepoWrite]
      | false =>
        rcases hcls : classifyChanges changes.results with ⟨changed, dels⟩
        cases hce : changed.isEmpty with
        | true =>
          cases hde : dels.isEmpty <;>
            cases hup : env.updateState <;>
              simp [hgc, hres, hcls, hce, hde, hup, noWriteAfterCursor, isRepoWrite]
        | false =>
          rcases hp : processDocuments env repo changed with ⟨res, rp, evs⟩
          have hevs := processDocuments_events env repo changed
          rw [hp] at hevs
          simp only at hevs
          rcases hevs with hevs | ⟨ids, hevs⟩ <;> subst hevs <;>
            cases hde : dels.isEmpty <;>
              cases hup : env.updateState <;>
                simp [hgc, hres, hcls, hce, hde, hup, hp, noWriteAfterCursor, isRepoWrite]

/-- C3: in every sync pass, full or incremental, no Note Repository write
(`saveMany` or `deleteMany`) is issued after the State Store cursor write
of that pass — the cursor is persisted only once the pass's note writes
have completed. -/
theorem cursor_persisted_after_note_writes (env : SyncEnv) (st : SyncStatus) (repo : Repo) :
    noWriteAfterCursor (runFullSync env st repo).trace ∧
    noWriteAfterCursor (runIncrementalSync env st repo).trace ∧
    noWriteAfterCursor (sync env st repo).trace := by
  refine ⟨runFullSync_cursor_after_writes env st repo,
    runIncrementalSync_cursor_after_writes env st repo, ?_⟩
  unfold sync
  by_cases hrun : st.isRunning = true
  · simp [hrun, noWriteAfterCursor]
  · rw [if_neg hrun]
    cases htr : truthyS st.lastSeq with
    | false => simpa using runFullSync_cursor_after_writes env st repo
    | true => simpa using runIncrementalSync_cursor_after_writes env st repo

/-! ## C9: full sync never deletes -/

theorem repoSaveMany_frame (ns : List Note) (id : String)
    (h : id ∉ ns.map (fun n => n.id)) :
    ∀ r : Repo, repoSaveMany r ns id = r id := by
  induction ns with
  | nil => intro r; rfl
  | cons n t ih =>
    intro r
    simp only [List.map_cons, List.mem_cons, not_or] at h
    have : repoSaveMany r (n :: t) = repoSaveMany (repoSave r n) t := rfl
    rw [this, ih (by simpa using h.2) (repoSave r n)]
    simp [repoSave, h.1]

theorem processDocuments_frame (env : SyncEnv) (repo : Repo) (docs : List LiveSyncDocument)
    (id : String)
    (h : ∀ ids, Event.saveMany ids ∈ (processDocuments env repo docs).2.2 → id ∉ ids) :
    (processDocuments env repo docs).2.1 id = repo id := by
  unfold processDocuments at h ⊢
  cases hn : (processLoop env docs).notes.isEmpty with
  | true => simp [hn]
  | false =>
    simp only [hn] at h ⊢
    simp only [Bool.false_eq_true, if_false, List.mem_singleton] at h ⊢
    exact repoSaveMany_frame _ id (h _ rfl) repo

/-- C9: a full sync pass issues no delete calls to the Note Repository, and
every note whose id is not among the ids of any bulk upsert of the pass is
unchanged in the repository afterwards (tombstoned records encountered
during the pass are skipped, not removed). -/
theorem fullSync_never_deletes (env : SyncEnv) (st : SyncStatus) (repo : Repo) :
    (∀ e ∈ (runFullSync env st repo).trace, isDeleteEvent e = false) ∧
    (∀ id : String,
      (∀ ids, Event.saveMany ids ∈ (runFullSync env st repo).trace → id ∉ ids) →
      (runFullSync env st repo).repoState id = repo id) := by
  unfold runFullSync
  by_cases hrun : st.isRunning = true
  · simp [hrun]
  · rw [if_neg hrun]
    dsimp only
    cases hga : env.getAllDocuments with
    | error e => simp [isDeleteEvent]
    | ok docs =>
      dsimp only
      rcases hp : processDocuments env repo docs with ⟨res, rp, evs⟩
      have hevs := processDocuments_events env repo docs
      have hrp : ∀ id : String,
          (∀ ids, Event.saveMany ids ∈ evs → id ∉ ids) → rp id = repo id := by
        intro id hid
        have := processDocuments_frame env repo docs id
        rw [hp] at this
        exact this hid
      rw [hp] at hevs
      simp only at hevs
      rcases hevs with hevs | ⟨ids, hevs⟩ <;> subst hevs <;>
        cases hdb : env.getDatabaseInfo <;>
          cases hup : env.updateState <;>
            exact ⟨by simp [isDeleteEvent],
              fun id hid => hrp id (fun ids' hids' => hid ids' (by
                first
                  | exact absurd hids' (List.not_mem_nil _)
                  | (simp only [List.mem_singleton] at hids'
                     simp [hids'])))⟩

/-- Witness for C9: over a store serving one note document, a full sync
leaves an unrelated id untouched in the repository and its trace holds no
delete event. -/
theorem fullSync_never_deletes_witness :
    (∀ e ∈ (runFullSync envSyncOneNote statusInit emptyRepo).trace, isDeleteEvent e = false) ∧
    (runFullSync envSyncOneNote statusInit emptyRepo).repoState "other.md" = emptyRepo "other.md" := by
  refine ⟨(fullSync_never_deletes envSyncOneNote statusInit emptyRepo).1, ?_⟩
  refine (fullSync_never_deletes envSyncOneNote statusInit emptyRepo).2 "other.md" ?_
  intro ids hids
  have htr : (runFullSync envSyncOneNote statusInit emptyRepo).trace =
      [Event.getAllDocuments, Event.saveMany ["note.md"], Event.getDatabaseInfo,
        Event.repoCount, Event.updateState "9"] := rfl
  rw [htr] at hids
  simp at hids
  simp [hids]

/-! ## C4: no initialization anomaly check -/

/-- Counterexample to C4 as stated: with a persisted cursor `5` and a Note
Repository holding zero notes (`emptyRepo` maps every id to `none`),
`initialize` keeps the cursor, makes no external call besides the State
Store read, and the next `sync` runs incrementally (its trace is exactly a
`getChanges` call; no `getAllDocuments` full fetch happens). -/
theorem initialize_keeps_stale_cursor_counterexample :
    (initializeService (some "5") statusInit).1.lastSeq = some "5" ∧
    (initializeService (some "5") statusInit).2 = [] ∧
    (sync envSync0 (initializeService (some "5") statusInit).1 emptyRepo).trace =
      [Event.getChanges "5"] ∧
    Event.getAllDocuments ∉
      (sync envSync0 (initializeService (some "5") statusInit).1 emptyRepo).trace := by
  refine ⟨rfl, rfl, rfl, ?_⟩
  intro hmem
  simp only [show (sync envSync0 (initializeService (some "5") statusInit).1 emptyRepo).trace =
    [Event.getChanges "5"] from rfl] at hmem
  exact absurd hmem (by simp)

theorem runIncrementalSync_trace_shape (env : SyncEnv) (st : SyncStatus) (repo : Repo)
    (h : st.isRunning = false) :
    (runIncrementalSync env st repo).trace.head? =
      some (Event.getChanges (st.lastSeq.getD "")) ∧
    Event.getAllDocuments ∉ (runIncrementalSync env st repo).trace := by
  unfold runIncrementalSync
  rw [if_neg (by simp [h])]
  dsimp only
  cases hgc : env.getChanges (st.lastSeq.getD "") with
  | error e => exact ⟨by simp [hgc], by simp [hgc]⟩
  | ok changes =>
    cases hres : changes.results.isEmpty with
    | true => exact ⟨by simp [hgc, hres], by simp [hgc, hres]⟩
    | false =>
      rcases hcls : classifyChanges changes.results with ⟨changed, dels⟩
      cases hce : changed.isEmpty with
      | true =>
        cases hde : dels.isEmpty <;>
          cases hup : env.updateState <;>
            exact ⟨by simp [hgc, hres, hcls, hce, hde, hup],
              by simp [hgc, hres, hcls, hce, hde, hup]⟩
      | false =>
        have hevs := processDocuments_events env repo changed
        rcases hevs with hevs | ⟨ids, hevs⟩ <;>
          cases hde : dels.isEmpty <;>
            cases hup : env.updateState <;>
              exact ⟨by simp [hgc, hres, hcls, hce, hde, hup, hevs],
                by simp [hgc, hres, hcls, hce, hde, hup, hevs]⟩

/-- C4 as amended: `initialize()` adopts a truthy persisted cursor
unconditionally — it never consults the Note Repository (it makes no
external call besides the State Store read), there is no zero-notes
anomaly check, and with any cursor held the next `sync()` performs an
incremental pass (a `getChanges` call first, never a `getAllDocuments`
full fetch), regardless of the repository contents. -/
theorem initialize_no_anomaly_check :
    (∀ s : String, ∀ st : SyncStatus, s ≠ "" →
      initializeService (some s) st = ({ st with lastSeq := some s }, [])) ∧
    (∀ (env : SyncEnv) (st : SyncStatus) (repo : Repo),
      st.isRunning = false → truthyS st.lastSeq = true →
      (sync env st repo).trace.head? = some (Event.getChanges (st.lastSeq.getD "")) ∧
      Event.getAllDocuments ∉ (sync env st repo).trace) := by
  constructor
  · intro s st hs
    simp [initializeService, truthyS, hs]
  · intro env st repo h htr
    have : sync env st repo = runIncrementalSync env st repo := by
      unfold sync
      rw [if_neg (by simp [h]), htr]
      simp
    rw [this]
    exact runIncrementalSync_trace_shape env st repo h

/-- Witness for C4's amended claim at a concrete cursor, status, store and
empty repository. -/
theorem initialize_no_anomaly_check_witness :
    initializeService (some "5") statusInit = ({ statusInit with lastSeq := some "5" }, []) ∧
    (sync envSync0 { statusInit with lastSeq := some "5" } emptyRepo).trace.head? =
      some (Event.getChanges "5") ∧
    Event.getAllDocuments ∉
      (sync envSync0 { statusInit with lastSeq := some "5" } emptyRepo).trace :=
  ⟨initialize_no_anomaly_check.1 "5" statusInit (by decide),
    initialize_no_anomaly_check.2 envSync0 { statusInit with lastSeq := some "5" }
      emptyRepo rfl (by decide)⟩

end ObsLs
